import Mathlib

/-!
Verification development for the multi-key LLM rate-limiting and
guaranteed-completion processor (`prototype/llm/rate_limiter.py`,
`prototype/llm/groq_client.py`, `prototype/llm/processor.py`).

Modelling conventions: wall-clock timestamps, token counts and waits are
rationals (`ℚ`); Python dicts keyed by API-key strings are total functions
`String → α` (every key is initialised in `__init__`); `time.time()` is an
explicit `now`/`start` argument threaded through each operation; fallible
paths (a Python `raise` / `IndexError`) are `Option`/`Except` values.
-/

namespace RateLimiter

/-- State of `RobustMultiKeyRateLimiter` (rate_limiter.py, `__init__`).
`key_usage` holds `(timestamp, tokens_used)` pairs. -/
structure LimiterState where
  api_keys : List String
  max_tokens_per_minute : ℚ
  min_call_interval : ℚ
  key_usage : String → List (ℚ × ℚ)
  key_last_call : String → ℚ
  key_failures : String → ℕ
  key_cooldown : String → ℚ
  key_health : String → ℤ
  key_success_count : String → ℕ

/-- Pointwise update of a dict modelled as a function. -/
def upd {α : Type} (f : String → α) (k : String) (v : α) : String → α :=
  fun k' => if k' = k then v else f k'

/-- The `__init__` loop: every key starts with empty usage, last call 0,
no failures, no cooldown, health 100 and no successes. -/
def initState (api_keys : List String) (max_tokens_per_minute : ℚ)
    (min_call_interval : ℚ) : LimiterState where
  api_keys := api_keys
  max_tokens_per_minute := max_tokens_per_minute
  min_call_interval := min_call_interval
  key_usage := fun _ => []
  key_last_call := fun _ => 0
  key_failures := fun _ => 0
  key_cooldown := fun _ => 0
  key_health := fun _ => 100
  key_success_count := fun _ => 0

/-- Models `update_key_health`: on success `+5` capped at 100 and failure count
decremented (floored at 0, which is exactly `ℕ` subtraction); on failure
`-10` floored at 0 and failure count incremented. -/
def update_key_health (s : LimiterState) (api_key : String) (success : Bool) :
    LimiterState :=
  if success then
    { s with
      key_success_count := upd s.key_success_count api_key (s.key_success_count api_key + 1)
      key_health := upd s.key_health api_key (min 100 (s.key_health api_key + 5))
      key_failures := upd s.key_failures api_key (s.key_failures api_key - 1) }
  else
    { s with
      key_failures := upd s.key_failures api_key (s.key_failures api_key + 1)
      key_health := upd s.key_health api_key (max 0 (s.key_health api_key - 10)) }

/-- The base cooldown chosen in `mark_key_failed`:
`30 if error_type == "rate_limit" else 10`. -/
def base_cooldown (error_type : String) : ℚ :=
  if error_type = "rate_limit" then 30 else 10

/-- Models `mark_key_failed`: increments the failure count, sets
`cooldown_until = now + base * min(failures, 5)` and applies the extra
`-15` health penalty (floored at 0). -/
def mark_key_failed (s : LimiterState) (api_key : String) (error_type : String)
    (now : ℚ) : LimiterState :=
  let failures := s.key_failures api_key + 1
  let failure_multiplier : ℕ := min failures 5
  let cooldown_seconds : ℚ := base_cooldown error_type * (failure_multiplier : ℚ)
  { s with
    key_failures := upd s.key_failures api_key failures
    key_cooldown := upd s.key_cooldown api_key (now + cooldown_seconds)
    key_health := upd s.key_health api_key (max 0 (s.key_health api_key - 15)) }

/-- Models `record_request`: appends `(now, tokens_used)` to the usage window,
updates `key_last_call`, then applies `update_key_health`. -/
def record_request (s : LimiterState) (api_key : String) (tokens_used : ℚ)
    (success : Bool) (now : ℚ) : LimiterState :=
  let s1 := { s with
    key_usage := upd s.key_usage api_key (s.key_usage api_key ++ [(now, tokens_used)])
    key_last_call := upd s.key_last_call api_key now }
  update_key_health s1 api_key success

/-- The lazy pruning done inside `get_best_available_key`: keep only the
charges with `ts > current_time - 60`. -/
def prune_usage (usage : List (ℚ × ℚ)) (now : ℚ) : List (ℚ × ℚ) :=
  usage.filter (fun p => decide (now - 60 < p.1))

/-- Computes `sum(tokens for _, tokens in usage)`. -/
def window_cost (usage : List (ℚ × ℚ)) : ℚ :=
  (usage.map Prod.snd).sum

/-- One iteration of the availability loop of `get_best_available_key`:
`none` when the key is skipped (cooldown, token window, call spacing),
otherwise the key paired with its comprehensive score. -/
def eligible_entry (s : LimiterState) (estimated_tokens now : ℚ) (key : String) :
    Option (String × ℚ) :=
  if now < s.key_cooldown key then none
  else if window_cost (prune_usage (s.key_usage key) now) + estimated_tokens
          > s.max_tokens_per_minute then none
  else if now - s.key_last_call key < s.min_call_interval then none
  else
    some (key,
      (s.key_health key : ℚ)
        - (window_cost (prune_usage (s.key_usage key) now) / s.max_tokens_per_minute) * 50
        - (s.key_failures key : ℚ) * 10)

/-- Head of the stable descending sort by score: the first entry holding the
maximum score (Python `list.sort` is stable, so `available_keys[0]` after
`sort(reverse=True)` is the first-encountered maximal entry). -/
def pickBest : List (String × ℚ) → Option (String × ℚ)
  | [] => none
  | p :: ps => some (ps.foldl (fun best q => if best.2 < q.2 then q else best) p)

/-- Timestamp of the oldest charge (`min(ts for ts, _ in usage)`); only ever
used on non-empty usage lists. -/
def oldest_ts : List (ℚ × ℚ) → ℚ
  | [] => 0
  | p :: ps => ps.foldl (fun m q => min m q.1) p.1

/-- The per-key wait computed in the no-available-key branch:
`max(cooldown_wait, token_wait, call_wait)`.  Keys that passed the cooldown
check in the first loop had their usage pruned in place before this branch
runs; keys skipped by `continue` kept their unpruned usage — the
`if now < cooldown` test reproduces that in-place mutation. -/
def key_wait (s : LimiterState) (now : ℚ) (key : String) : ℚ :=
  let cooldown_wait := max 0 (s.key_cooldown key - now)
  let usage := if now < s.key_cooldown key then s.key_usage key
               else prune_usage (s.key_usage key) now
  let token_wait := match usage with
    | [] => 0
    | p :: ps => max 0 (61 - (now - oldest_ts (p :: ps)))
  let call_wait := max 0 (s.min_call_interval - (now - s.key_last_call key))
  max cooldown_wait (max token_wait call_wait)

/-- The `min_wait` value: smallest `key_wait` over all keys (the Python loop starts
from `inf`; for a non-empty key list this is the fold below). -/
def min_wait_of (s : LimiterState) (now : ℚ) : ℚ :=
  match s.api_keys with
  | [] => 0
  | k :: ks => ks.foldl (fun m k' => min m (key_wait s now k')) (key_wait s now k)

/-- Models `get_best_available_key`: best-scoring eligible key with wait 0, else the
first configured key with `max(min_wait, 2.0)`.  `none` models the
`IndexError` raised by `self.api_keys[0]` on an empty key list. -/
def get_best_available_key (s : LimiterState) (estimated_tokens now : ℚ) :
    Option (String × ℚ) :=
  let available := s.api_keys.filterMap (eligible_entry s estimated_tokens now)
  match pickBest available with
  | some best => some (best.1, 0)
  | none =>
    match s.api_keys with
    | [] => none
    | k0 :: _ => some (k0, max (min_wait_of s now) 2)

/-- Models `max(self.api_keys, key=lambda k: self.key_health.get(k, 0))`: the first
key attaining the maximal health score (Python `max` keeps the earlier
element on ties). -/
def healthiest_key (s : LimiterState) : Option String :=
  match s.api_keys with
  | [] => none
  | k :: ks =>
      some (ks.foldl (fun best k' =>
        if s.key_health best < s.key_health k' then k' else best) k)

/-- The adaptive delay of `wait_for_available_key_async`:
`min(wait_time * (1 + attempt * 0.2), 60)`. -/
def adaptive_wait_of (wait_time : ℚ) (attempt : ℕ) : ℚ :=
  min (wait_time * (1 + (attempt : ℚ) * (1/5))) 60

/-- The `while (time.time() - start_time) < max_wait_time` loop of
`wait_for_available_key_async`, with the clock advanced explicitly by each
`asyncio.sleep(adaptive_wait)`.  The extra fuel argument bounds the
recursion; `wait_loop_isSome_of_fuel` below shows it never runs out with
the fuel supplied by `wait_for_available_key_async`. -/
def wait_loop (s : LimiterState) (estimated_tokens max_wait_time start : ℚ) :
    ℕ → ℚ → ℕ → Option String
  | 0, _, _ => none
  | Nat.succ fuel, elapsed, attempt =>
    if max_wait_time ≤ elapsed then healthiest_key s
    else
      match get_best_available_key s estimated_tokens (start + elapsed) with
      | none => none
      | some (key, wait_time) =>
        if wait_time = 0 then some key
        else if max_wait_time - elapsed < adaptive_wait_of wait_time attempt then
          healthiest_key s
        else wait_loop s estimated_tokens max_wait_time start fuel
               (elapsed + adaptive_wait_of wait_time attempt) (attempt + 1)

/-- Fuel budget: every sleeping round advances the clock by at least 2
seconds (the selector returns waits of 0 or ≥ 2), so `⌈max_wait⌉ + 1`
rounds always suffice. -/
def wait_fuel (max_wait_time : ℚ) : ℕ :=
  (⌈max_wait_time⌉).toNat + 1

/-- Models `wait_for_available_key_async` (rate_limiter.py): poll
`get_best_available_key`, sleep the adaptive delay while a wait is needed,
and fall back to the globally healthiest key when the budget runs out. -/
def wait_for_available_key_async (s : LimiterState)
    (estimated_tokens max_wait_time start : ℚ) : Option String :=
  wait_loop s estimated_tokens max_wait_time start (wait_fuel max_wait_time) 0 0

/-- The two tracker calls made on the HTTP 429 branch of
`generate_summary_with_guarantee` (groq_client.py):
`mark_key_failed(api_key, "rate_limit")` followed by
`record_request(api_key, estimated_tokens, success=False)`. -/
def on_rate_limited (s : LimiterState) (api_key : String)
    (estimated_tokens now : ℚ) : LimiterState :=
  record_request (mark_key_failed s api_key "rate_limit" now)
    api_key estimated_tokens false now

/-- Interleavable tracker mutations, for the health-bound invariant. -/
inductive TrackerOp where
  | record (api_key : String) (tokens_used : ℚ) (success : Bool) (now : ℚ)
  | markFailed (api_key : String) (error_type : String) (now : ℚ)

/-- Apply one tracker operation. -/
def apply_op (s : LimiterState) : TrackerOp → LimiterState
  | .record k t succ now => record_request s k t succ now
  | .markFailed k et now => mark_key_failed s k et now

/-- Apply a whole sequence of tracker operations in order. -/
def run_ops (s : LimiterState) (ops : List TrackerOp) : LimiterState :=
  ops.foldl apply_op s

end RateLimiter

namespace GroqClient

/-- The fields of `LLMSummaryResponse` written back by the processor
(summary_models.py / processor.py). -/
structure LLMSummaryResponse where
  summary : String
  key_insights : List String
deriving DecidableEq

/-- The classification of one attempt of the retry loop of
`generate_summary_with_guarantee` (groq_client.py): the five
non-success branches all sleep a scheduled delay and move to the next
attempt (the non-retryable-status branch skips the sleep on the very last
attempt but equally falls through to the final `raise`). -/
inductive AttemptOutcome where
  | success (response : LLMSummaryResponse)
  | rateLimited
  | serverError
  | otherStatus
  | timeoutErr
  | exceptionRaised
deriving DecidableEq

/-- The constant `max_retries = 15`. -/
def max_retries : ℕ := 15

/-- The message of the exception raised once every retry is exhausted. -/
def exhaustion_message (file_path : String) : String :=
  "CRITICAL: Failed to process " ++ file_path ++ " after " ++
    toString max_retries ++ " attempts with robust retry system"

/-- Bool test for the success branch of an attempt. -/
def isSuccessOutcome : AttemptOutcome → Bool
  | .success _ => true
  | _ => false

/-- The response returned on a successful attempt (junk elsewhere). -/
def outcome_response : AttemptOutcome → LLMSummaryResponse
  | .success r => r
  | _ => ⟨"", []⟩

/-- The `for attempt in range(max_retries)` loop, with the outcome of each
attempt injected by the `outcomes` schedule: a successful attempt returns
the parsed response at once; every other outcome proceeds to the next
attempt; falling off the loop reaches the final `raise`.
`remaining` counts the attempts still allowed, so the current attempt
index is `max_retries - remaining`. -/
def retry_go (outcomes : ℕ → AttemptOutcome) (file_path : String) :
    ℕ → ℕ → Except String LLMSummaryResponse
  | 0, _ => .error (exhaustion_message file_path)
  | Nat.succ remaining, attempt =>
    match outcomes attempt with
    | .success response => .ok response
    | _ => retry_go outcomes file_path remaining (attempt + 1)

/-- Models `generate_summary_with_guarantee` as a function of the injected
per-attempt outcomes: the `.error` value models the raised exception. -/
def generate_summary_with_guarantee (outcomes : ℕ → AttemptOutcome)
    (file_path : String) : Except String LLMSummaryResponse :=
  retry_go outcomes file_path max_retries 0

end GroqClient

namespace Processor

open GroqClient

/-- The fields of `DetailedFileAnalysis` (analysis_models.py) read or
written by the processor.  The extracted structural lists are kept as
plain name lists (only their lengths are consulted);
`service_type` is `service_info.type` when `service_info` is set. -/
structure DetailedFileAnalysis where
  file : String
  language : String
  service_type : Option String
  functions : List String
  classes : List String
  api_endpoints : List String
  lines_of_code : ℕ
  llm_summary : Option String
  key_patterns : List String
deriving DecidableEq

/-- Python substring membership `pat in s`, on character lists:
a leading-segment test at the current position. -/
def seq_starts_with : List Char → List Char → Bool
  | [], _ => true
  | _ :: _, [] => false
  | p :: ps, c :: cs => p == c && seq_starts_with ps cs

/-- Python substring membership `pat in s`, scanning every position. -/
def seq_found_in (pat : List Char) : List Char → Bool
  | [] => seq_starts_with pat []
  | c :: cs => seq_starts_with pat (c :: cs) || seq_found_in pat cs

/-- Python `pat in s` for strings. -/
def containsSub (s pat : String) : Bool :=
  seq_found_in pat.toList s.toList

/-- Python `s.lower()` (ASCII per-character lowering, which is all the
file paths here use). -/
def str_lower (s : String) : String :=
  ⟨s.data.map Char.toLower⟩

/-- Python `s.endswith(pat)`. -/
def str_ends_with (s pat : String) : Bool :=
  seq_starts_with pat.data.reverse s.data.reverse

/-- Models `Path(file_path).name`: the component after the last slash (these
paths are POSIX-style with no trailing slash). -/
def path_name (p : String) : String :=
  ⟨(p.data.reverse.takeWhile (fun c => c != '/')).reverse⟩

/-- The service-name patterns tested against the lowered path in
`_should_process_file_optimized`. -/
def service_patterns : List String :=
  ["server", "api", "service", "controller", "route", "handler",
   "app.py", "main.py", "app.js", "index.js"]

/-- Models `_should_process_file_optimized` (processor.py): backend or
service-named, with at least one function, API endpoint or class, and not
a configuration file.  (`is_minimal` is computed by the source but unused
in the returned conjunction, and is omitted.) -/
def should_process_file_optimized (fa : DetailedFileAnalysis) : Bool :=
  let is_backend := decide (fa.service_type = some "backend")
  let is_service := service_patterns.any (fun p => containsSub (str_lower fa.file) p)
  let has_functions := fa.functions.length > 0
  let has_classes := fa.classes.length > 0
  let has_apis := fa.api_endpoints.length > 0
  let is_config :=
    str_ends_with fa.file ".json" || str_ends_with fa.file ".config.js" ||
    str_ends_with fa.file ".md" || containsSub (str_lower fa.file) "config" ||
    containsSub fa.file "package.json" || containsSub fa.file "vite.config" ||
    containsSub fa.file "tailwind.config"
  (is_backend || is_service) && (has_functions || has_apis || has_classes) && !is_config

/-- The placeholder summary assigned by the `except` branch of
`_process_single_file_optimized`. -/
def placeholder_summary (fa : DetailedFileAnalysis) : String :=
  "Backend file: " ++ path_name fa.file

/-- Models `_process_single_file_optimized` (processor.py): run the guaranteed
LLM call (injected here as `llm`, standing for
`generate_summary_with_guarantee` applied to the request built from the
file) and write back the summary and insights; any raised exception is
caught and replaced by the placeholder summary. -/
def process_single_file_optimized
    (llm : DetailedFileAnalysis → Except String LLMSummaryResponse)
    (fa : DetailedFileAnalysis) : DetailedFileAnalysis :=
  match llm fa with
  | .ok response =>
      { fa with llm_summary := some response.summary
                key_patterns := response.key_insights }
  | .error _ =>
      { fa with llm_summary := some (placeholder_summary fa) }

/-- The `{f.file: f for f in processed_files}` dict lookup: later entries
overwrite earlier ones, so the last matching element wins. -/
def lookup_processed (processed : List DetailedFileAnalysis) (name : String) :
    Option DetailedFileAnalysis :=
  processed.reverse.find? (fun fa => decide (fa.file = name))

/-- Models `process_files_with_llm_optimized` (processor.py): with no API keys the
input is returned untouched; otherwise the qualifying files that have
non-empty content are processed one by one (the semaphore bounds
concurrency but every task runs to completion, and
`gather(..., return_exceptions=True)` never sees an exception because
`_process_single_file_optimized` catches them all), and each original
entry whose file name appears among the processed results is replaced by
its processed version. -/
def process_files_with_llm_optimized (api_keys : List String)
    (llm : DetailedFileAnalysis → Except String LLMSummaryResponse)
    (files_data : List DetailedFileAnalysis)
    (file_contents : String → String) : List DetailedFileAnalysis :=
  match api_keys with
  | [] => files_data
  | _ :: _ =>
    let files_to_process := files_data.filter should_process_file_optimized
    if files_to_process.isEmpty then files_data
    else
      let tasked := files_to_process.filter (fun fa => decide (file_contents fa.file ≠ ""))
      if tasked.isEmpty then files_data
      else
        let processed := tasked.map (process_single_file_optimized llm)
        files_data.map (fun fa =>
          match lookup_processed processed fa.file with
          | some pfa => pfa
          | none => fa)

end Processor

namespace Examples

open RateLimiter GroqClient Processor

/-- A limiter with one key whose cooldown ends at 5.5s, probed at t = 5. -/
def c3_state : LimiterState where
  api_keys := ["a"]
  max_tokens_per_minute := 3000
  min_call_interval := 1
  key_usage := fun _ => []
  key_last_call := fun _ => 0
  key_failures := fun _ => 0
  key_cooldown := fun _ => 11/2
  key_health := fun _ => 100
  key_success_count := fun _ => 0

/-- A limiter with one key that already accumulated 7 failures. -/
def c6_state : LimiterState where
  api_keys := ["a"]
  max_tokens_per_minute := 3000
  min_call_interval := 1
  key_usage := fun _ => []
  key_last_call := fun _ => 0
  key_failures := fun _ => 7
  key_cooldown := fun _ => 0
  key_health := fun _ => 100
  key_success_count := fun _ => 0

/-- A limiter with one key carrying a single charge of cost `C` recorded at
t = 0, with `max_tokens_per_minute = C`. -/
def c7_state (k : String) (C : ℚ) : LimiterState where
  api_keys := [k]
  max_tokens_per_minute := C
  min_call_interval := 1
  key_usage := fun _ => [(0, C)]
  key_last_call := fun _ => 0
  key_failures := fun _ => 0
  key_cooldown := fun _ => 0
  key_health := fun _ => 100
  key_success_count := fun _ => 0

/-- A limiter whose only key is in cooldown until t = 100, probed at t = 0. -/
def c8_state : LimiterState where
  api_keys := ["a"]
  max_tokens_per_minute := 3000
  min_call_interval := 1
  key_usage := fun _ => []
  key_last_call := fun _ => 0
  key_failures := fun _ => 0
  key_cooldown := fun _ => 100
  key_health := fun _ => 100
  key_success_count := fun _ => 0

/-- A fresh two-key limiter. -/
def c9_state : LimiterState := initState ["a", "b"] 3000 1

/-- A fresh one-key limiter, probed when its key is immediately eligible. -/
def c8w_state : LimiterState := initState ["a"] 3000 1

/-- A backend file that qualifies for LLM enrichment. -/
def qualifying_file : DetailedFileAnalysis where
  file := "server/app.py"
  language := "python"
  service_type := some "backend"
  functions := ["main"]
  classes := []
  api_endpoints := []
  lines_of_code := 50
  llm_summary := none
  key_patterns := []

/-- A markdown file with no extracted structure: it does not qualify. -/
def config_file : DetailedFileAnalysis where
  file := "notes.md"
  language := "markdown"
  service_type := none
  functions := []
  classes := []
  api_endpoints := []
  lines_of_code := 3
  llm_summary := none
  key_patterns := []

/-- An injected LLM call that always succeeds. -/
def llm_ok : DetailedFileAnalysis → Except String LLMSummaryResponse :=
  fun _ => .ok ⟨"a real summary", ["insight"]⟩

/-- An injected LLM call whose retry budget is always exhausted: every
attempt is rate-limited, so `generate_summary_with_guarantee` raises. -/
def llm_exhausted : DetailedFileAnalysis → Except String LLMSummaryResponse :=
  fun fa => generate_summary_with_guarantee (fun _ => .rateLimited) fa.file

end Examples

namespace RateLimiter

theorem upd_apply {α : Type} (f : String → α) (k k' : String) (v : α) :
    upd f k v k' = if k' = k then v else f k' := rfl

/-- Health scores within `[0,100]` for every key. -/
def health_inv (s : LimiterState) : Prop :=
  ∀ k, 0 ≤ s.key_health k ∧ s.key_health k ≤ 100

theorem health_inv_update (s : LimiterState) (k : String) (b : Bool)
    (h : health_inv s) : health_inv (update_key_health s k b) := by
  intro k'
  have hk := h k
  have hk' := h k'
  unfold update_key_health
  cases b <;> simp only [upd_apply, Bool.false_eq_true, if_neg, if_pos] <;>
    by_cases e : k' = k <;> simp [upd_apply, e] <;> omega

theorem health_inv_mark (s : LimiterState) (k et : String) (now : ℚ)
    (h : health_inv s) : health_inv (mark_key_failed s k et now) := by
  intro k'
  have hk := h k
  have hk' := h k'
  unfold mark_key_failed
  by_cases e : k' = k <;> simp [upd_apply, e] <;> omega

theorem health_inv_record (s : LimiterState) (k : String) (t : ℚ) (b : Bool)
    (now : ℚ) (h : health_inv s) : health_inv (record_request s k t b now) := by
  unfold record_request
  exact health_inv_update _ k b (fun k' => h k')

theorem health_inv_apply (s : LimiterState) (op : TrackerOp)
    (h : health_inv s) : health_inv (apply_op s op) := by
  cases op with
  | record k t b now => exact health_inv_record s k t b now h
  | markFailed k et now => exact health_inv_mark s k et now h

theorem health_inv_run (ops : List TrackerOp) :
    ∀ s : LimiterState, health_inv s → health_inv (run_ops s ops) := by
  induction ops with
  | nil => intro s h; exact h
  | cons op ops ih =>
      intro s h
      have : run_ops s (op :: ops) = run_ops (apply_op s op) ops := rfl
      rw [this]
      exact ih _ (health_inv_apply s op h)

/-- Claim C5: starting from a freshly initialised tracker (every health
score at 100), any finite interleaving of `record_request` and
`mark_key_failed` operations keeps every health score inside `[0,100]`
at every point of the sequence. -/
theorem C5_health_bounds (api_keys : List String)
    (max_tokens_per_minute min_call_interval : ℚ) (ops : List TrackerOp)
    (k : String) :
    0 ≤ (run_ops (initState api_keys max_tokens_per_minute min_call_interval) ops).key_health k
    ∧ (run_ops (initState api_keys max_tokens_per_minute min_call_interval) ops).key_health k ≤ 100 := by
  refine health_inv_run ops _ (fun k' => ?_) k
  simp [initState]

/-- Claim C10: the HTTP 429 branch calls `mark_key_failed` and then
`record_request(..., success=False)`, so the failure count rises by 2,
the health drops by 15 then 10 (each step floored at 0), the estimated
cost joins the usage window, and the last-call timestamp is updated. -/
theorem C10_rate_limited_double_penalty (s : LimiterState) (k : String)
    (estimated_tokens now : ℚ) :
    (on_rate_limited s k estimated_tokens now).key_failures k = s.key_failures k + 2
    ∧ (on_rate_limited s k estimated_tokens now).key_health k
        = max 0 (max 0 (s.key_health k - 15) - 10)
    ∧ (on_rate_limited s k estimated_tokens now).key_usage k
        = s.key_usage k ++ [(now, estimated_tokens)]
    ∧ (on_rate_limited s k estimated_tokens now).key_last_call k = now := by
  unfold on_rate_limited record_request mark_key_failed update_key_health
  simp [upd_apply]

/-- Claim C6: `mark_key_failed` sets
`cooldown_until = now + base(reason) * min(failure_count, 5)` with a
rate-limit base of 30s against 10s otherwise; successive rate-limit
failures at non-decreasing times give a non-decreasing `cooldown_until`,
and once the failure count reaches the cap the cooldown duration is
exactly `30 * 5 = 150` seconds. -/
theorem C6_cooldown_schedule (s : LimiterState) (k et : String) (now now' : ℚ) :
    (mark_key_failed s k et now).key_cooldown k
      = now + base_cooldown et * ((min (s.key_failures k + 1) 5 : ℕ) : ℚ)
    ∧ (base_cooldown "rate_limit" = 30 ∧ base_cooldown "server_error" = 10)
    ∧ (now ≤ now' →
        (mark_key_failed s k "rate_limit" now).key_cooldown k
          ≤ (mark_key_failed (mark_key_failed s k "rate_limit" now) k "rate_limit" now').key_cooldown k)
    ∧ (5 ≤ s.key_failures k →
        (mark_key_failed s k "rate_limit" now).key_cooldown k = now + 150) := by
  refine ⟨?_, ⟨?_, ?_⟩, ?_, ?_⟩
  · unfold mark_key_failed; simp [upd_apply]
  · simp [base_cooldown]
  · simp only [base_cooldown]; rw [if_neg (by decide)]
  · intro hnow
    have hmin : (min (s.key_failures k + 1) 5 : ℕ) ≤ min (s.key_failures k + 1 + 1) 5 := by
      omega
    have hcast : (((s.key_failures k : ℚ) + 1) ⊓ 5) ≤ (((s.key_failures k : ℚ) + 1 + 1) ⊓ 5) := by
      exact_mod_cast hmin
    simp [mark_key_failed, upd_apply, base_cooldown]
    linarith [hcast]
  · intro hcap
    have hmin : (min (s.key_failures k + 1) 5 : ℕ) = 5 := by omega
    simp [mark_key_failed, upd_apply, hmin, base_cooldown]
    norm_num

end RateLimiter

namespace Examples

/-- Witness for C6: concrete monotone times `5 ≤ 7` and a key with 7
recorded failures (past the cap), instantiating every hypothesis. -/
theorem C6_cooldown_schedule_witness :
    ((RateLimiter.mark_key_failed c6_state "a" "rate_limit" 5).key_cooldown "a"
      ≤ (RateLimiter.mark_key_failed
          (RateLimiter.mark_key_failed c6_state "a" "rate_limit" 5) "a" "rate_limit" 7).key_cooldown "a")
    ∧ (RateLimiter.mark_key_failed c6_state "a" "rate_limit" 5).key_cooldown "a" = 5 + 150 :=
  ⟨(RateLimiter.C6_cooldown_schedule c6_state "a" "rate_limit" 5 7).2.2.1 (by norm_num),
   (RateLimiter.C6_cooldown_schedule c6_state "a" "rate_limit" 5 7).2.2.2 (by decide)⟩

end Examples

namespace RateLimiter

theorem pick_step_or (p q : String × ℚ) :
    (if p.2 < q.2 then q else p) = p ∨ (if p.2 < q.2 then q else p) = q := by
  split
  · right; rfl
  · left; rfl

theorem foldl_pick_mem :
    ∀ (l : List (String × ℚ)) (a : String × ℚ),
      l.foldl (fun best q => if best.2 < q.2 then q else best) a ∈ a :: l := by
  intro l
  induction l with
  | nil => intro a; simp
  | cons x xs ih =>
      intro a
      rw [List.foldl_cons]
      rcases List.mem_cons.mp (ih (if a.2 < x.2 then x else a)) with h1 | h1
      · rw [h1]
        rcases pick_step_or a x with h2 | h2 <;> rw [h2] <;> simp
      · simp only [List.mem_cons]
        right; right; exact h1

theorem pickBest_mem {l : List (String × ℚ)} {p : String × ℚ}
    (h : pickBest l = some p) : p ∈ l := by
  cases l with
  | nil => simp [pickBest] at h
  | cons x xs =>
      simp only [pickBest, Option.some_inj] at h
      have hm := foldl_pick_mem xs x
      rw [h] at hm
      exact hm

theorem eligible_entry_some {s : LimiterState} {est now : ℚ} {a : String}
    {p : String × ℚ} (h : eligible_entry s est now a = some p) :
    p.1 = a ∧ s.key_cooldown a ≤ now := by
  unfold eligible_entry at h
  split at h
  · exact absurd h (by simp)
  · next hcool =>
      split at h
      · exact absurd h (by simp)
      · split at h
        · exact absurd h (by simp)
        · simp only [Option.some_inj] at h
          exact ⟨by rw [← h], le_of_not_lt hcool⟩

theorem get_best_single (s : LimiterState) (est now : ℚ) (k : String)
    (p : String × ℚ) (hkeys : s.api_keys = [k])
    (hel : eligible_entry s est now k = some p) :
    get_best_available_key s est now = some (p.1, 0) := by
  simp only [get_best_available_key, hkeys]
  simp [List.filterMap, hel, pickBest]

theorem get_best_cases {s : LimiterState} {est now : ℚ} {k : String} {w : ℚ}
    (h : get_best_available_key s est now = some (k, w)) :
    (w = 0 ∧ k ∈ s.api_keys ∧ s.key_cooldown k ≤ now)
    ∨ (s.api_keys.head? = some k ∧ w = max (min_wait_of s now) 2) := by
  simp only [get_best_available_key] at h
  cases hpick : pickBest (s.api_keys.filterMap (eligible_entry s est now)) with
  | some best =>
      rw [hpick] at h
      simp only [Option.some_inj, Prod.mk.injEq] at h
      obtain ⟨hk, hw⟩ := h
      left
      obtain ⟨a, ha, hea⟩ := List.mem_filterMap.mp (pickBest_mem hpick)
      obtain ⟨hfst, hcool⟩ := eligible_entry_some hea
      refine ⟨hw.symm, ?_, ?_⟩
      · rw [← hk, hfst]; exact ha
      · rw [← hk, hfst]; exact hcool
  | none =>
      rw [hpick] at h
      cases hkeys : s.api_keys with
      | nil => rw [hkeys] at h; exact absurd h (by simp)
      | cons k0 ks =>
          rw [hkeys] at h
          simp only [Option.some_inj, Prod.mk.injEq] at h
          right
          exact ⟨by simp [h.1], h.2.symm⟩

/-- Claim C8 (amended): a credential in cooldown is never returned as
immediately available (wait 0); when no credential is eligible, the
selector instead returns the *first configured* credential — whatever its
cooldown state — together with a wait of at least 2 seconds. -/
theorem C8_cooldown_exclusion (s : LimiterState) (est now : ℚ) (k : String)
    (w : ℚ) (h : get_best_available_key s est now = some (k, w)) :
    (w = 0 → s.key_cooldown k ≤ now)
    ∧ (w ≠ 0 → s.api_keys.head? = some k ∧ 2 ≤ w) := by
  rcases get_best_cases h with ⟨hw, _, hcool⟩ | ⟨hhead, hw⟩
  · exact ⟨fun _ => hcool, fun hne => absurd hw hne⟩
  · constructor
    · intro h0
      rw [h0] at hw
      have h2 := le_max_right (min_wait_of s now) 2
      rw [← hw] at h2
      norm_num at h2
    · intro _
      exact ⟨hhead, by rw [hw]; exact le_max_right _ _⟩

/-- Witness for C8: a fresh single-key limiter probed at t = 5 returns its
key with zero wait, and the theorem then yields `cooldown_until ≤ now`. -/
theorem C8_cooldown_exclusion_witness :
    Examples.c8w_state.key_cooldown "a" ≤ 5 :=
  (C8_cooldown_exclusion Examples.c8w_state 10 5 "a" 0 (by
    have hel : ∃ sc, eligible_entry Examples.c8w_state 10 5 "a" = some ("a", sc) := by
      norm_num [eligible_entry, Examples.c8w_state, initState, prune_usage, window_cost]
    obtain ⟨sc, hel⟩ := hel
    simpa using get_best_single _ 10 5 "a" _ rfl hel)).1 rfl

/-- Counterexample to C8 as stated: with the only credential in cooldown
until t = 100, `select` at t = 0 still returns that credential (paired
with a wait), although its `cooldown_until > now`. -/
theorem C8_counterexample :
    get_best_available_key Examples.c8_state 10 0 = some ("a", 100)
    ∧ (0:ℚ) < Examples.c8_state.key_cooldown "a" := by
  constructor
  · norm_num [get_best_available_key, eligible_entry, prune_usage,
      window_cost, pickBest, min_wait_of, key_wait, oldest_ts, Examples.c8_state]
  · norm_num [Examples.c8_state]

/-- Claim C7: charges older than 60 seconds are pruned and never count
toward the window cost; in particular a single charge of cost `C` at
t = 0 with `max_tokens_per_minute = C` does not block `select(C)` at
t = 61 — the key is returned with zero wait. -/
theorem C7_window_pruning :
    (∀ (usage : List (ℚ × ℚ)) (now ts c : ℚ), ts ≤ now - 60 →
        prune_usage ((ts, c) :: usage) now = prune_usage usage now)
    ∧ ∀ (k : String) (C : ℚ),
        get_best_available_key (Examples.c7_state k C) C 61 = some (k, 0) := by
  constructor
  · intro usage now ts c h
    have hx : ¬ (now - 60 < ts) := not_lt.mpr h
    simp [prune_usage, hx]
  · intro k C
    have hel : ∃ sc, eligible_entry (Examples.c7_state k C) C 61 k = some (k, sc) := by
      norm_num [eligible_entry, Examples.c7_state, prune_usage, window_cost]
    obtain ⟨sc, hel⟩ := hel
    simpa using get_best_single _ C 61 k _ rfl hel

/-- Witness for C7: the stale charge `(0, 5)` is pruned at t = 61, and the
concrete single-charge scenario succeeds with zero wait. -/
theorem C7_window_pruning_witness :
    prune_usage [((0:ℚ), (5:ℚ))] 61 = prune_usage [] 61
    ∧ get_best_available_key (Examples.c7_state "a" 100) 100 61 = some ("a", 0) :=
  ⟨C7_window_pruning.1 [] 61 0 5 (by norm_num),
   C7_window_pruning.2 "a" 100⟩

/-- Claim C3 (amended): when no credential is eligible, the selector does
not return null — it returns the first configured credential together
with `max(min_wait, 2)`, where `min_wait` is the smallest over all
credentials of `max(cooldown_wait, token_wait, call_wait)`: the 2-second
floor is added on top of the earliest-eligibility wait. -/
theorem C3_no_eligible_fallback (s : LimiterState) (est now : ℚ)
    (k0 : String) (ks : List String) (hkeys : s.api_keys = k0 :: ks)
    (hnone : ∀ k ∈ s.api_keys, eligible_entry s est now k = none) :
    get_best_available_key s est now = some (k0, max (min_wait_of s now) 2) := by
  unfold get_best_available_key
  have hfm : s.api_keys.filterMap (eligible_entry s est now) = [] :=
    List.filterMap_eq_nil_iff.mpr hnone
  rw [hfm, hkeys]
  simp [pickBest]

/-- Witness for C3 (amended): the single key of `c3_state` is in cooldown
at t = 5, so the fallback fires and returns it with the floored wait. -/
theorem C3_no_eligible_fallback_witness :
    get_best_available_key Examples.c3_state 10 5
      = some ("a", max (min_wait_of Examples.c3_state 5) 2) :=
  C3_no_eligible_fallback Examples.c3_state 10 5 "a" [] rfl (by
    intro k hk
    simp only [Examples.c3_state, List.mem_singleton] at hk
    subst hk
    norm_num [eligible_entry, Examples.c3_state, prune_usage, window_cost])

/-- Counterexample to C3 as stated: `c3_state` has `min_wait = 0.5`
(cooldown remainder), yet `select` returns the key "a" (not null) with a
wait of 2 seconds — the 2-second floor raised the advertised wait above
the earliest-eligibility time. -/
theorem C3_counterexample :
    get_best_available_key Examples.c3_state 10 5 = some ("a", 2)
    ∧ min_wait_of Examples.c3_state 5 = 1/2
    ∧ (2:ℚ) ≠ 1/2 := by
  refine ⟨?_, ?_, by norm_num⟩
  · norm_num [get_best_available_key, eligible_entry, prune_usage, window_cost,
      pickBest, min_wait_of, key_wait, oldest_ts, Examples.c3_state]
  · norm_num [min_wait_of, key_wait, oldest_ts, prune_usage, Examples.c3_state]

end RateLimiter

namespace GroqClient

theorem retry_go_error (outcomes : ℕ → AttemptOutcome) (fp : String) :
    ∀ (remaining attempt : ℕ),
      (∀ i, attempt ≤ i → i < attempt + remaining → isSuccessOutcome (outcomes i) = false) →
      retry_go outcomes fp remaining attempt = .error (exhaustion_message fp) := by
  intro remaining
  induction remaining with
  | zero => intro attempt _; rfl
  | succ n ih =>
      intro attempt h
      have h0 := h attempt (le_refl _) (by omega)
      unfold retry_go
      cases hc : outcomes attempt with
      | success r => rw [hc] at h0; simp [isSuccessOutcome] at h0
      | _ => exact ih (attempt + 1) (fun i h1 h2 => h i (by omega) (by omega))

theorem retry_go_ok (outcomes : ℕ → AttemptOutcome) (fp : String) :
    ∀ (remaining attempt k : ℕ), attempt ≤ k → k < attempt + remaining →
      (∀ j, attempt ≤ j → j < k → isSuccessOutcome (outcomes j) = false) →
      ∀ r, outcomes k = .success r →
      retry_go outcomes fp remaining attempt = .ok r := by
  intro remaining
  induction remaining with
  | zero => intro attempt k h1 h2; omega
  | succ n ih =>
      intro attempt k h1 h2 h3 r hr
      unfold retry_go
      rcases Nat.eq_or_lt_of_le h1 with he | hlt
      · rw [← he] at hr; rw [hr]
      · have h0 := h3 attempt (le_refl _) hlt
        cases hc : outcomes attempt with
        | success r' => rw [hc] at h0; simp [isSuccessOutcome] at h0
        | _ => exact ih (attempt + 1) k hlt (by omega)
                 (fun j hj1 hj2 => h3 j (by omega) hj2) r hr

theorem retry_go_ok_inv (outcomes : ℕ → AttemptOutcome) (fp : String) :
    ∀ (remaining attempt : ℕ) (r : LLMSummaryResponse),
      retry_go outcomes fp remaining attempt = .ok r →
      ∃ i, attempt ≤ i ∧ i < attempt + remaining ∧ outcomes i = .success r := by
  intro remaining
  induction remaining with
  | zero => intro attempt r h; exact absurd h (by simp [retry_go])
  | succ n ih =>
      intro attempt r h
      unfold retry_go at h
      cases hc : outcomes attempt with
      | success r' =>
          rw [hc] at h
          simp only [Except.ok.injEq] at h
          exact ⟨attempt, le_refl _, by omega, by rw [hc, h]⟩
      | _ =>
          rw [hc] at h
          obtain ⟨i, hi1, hi2, hi3⟩ := ih (attempt + 1) r h
          exact ⟨i, by omega, by omega, hi3⟩

/-- Claim C2: for every injected outcome schedule the retry loop of
`generate_summary_with_guarantee` terminates — it returns the response of
the first successful attempt, and 15 attempts without a success end in
the raised exhaustion error. -/
theorem C2_retry_termination (outcomes : ℕ → AttemptOutcome) (fp : String) :
    ((∀ i, i < max_retries → isSuccessOutcome (outcomes i) = false) →
        generate_summary_with_guarantee outcomes fp = .error (exhaustion_message fp))
    ∧ (∀ k, k < max_retries →
        (∀ j, j < k → isSuccessOutcome (outcomes j) = false) →
        ∀ r, outcomes k = .success r →
        generate_summary_with_guarantee outcomes fp = .ok r) := by
  constructor
  · intro h
    exact retry_go_error outcomes fp max_retries 0 (fun i _ h2 => h i (by omega))
  · intro k hk hprev r hr
    exact retry_go_ok outcomes fp max_retries 0 k (Nat.zero_le _) (by omega)
      (fun j _ hj => hprev j hj) r hr

/-- Witness for C2: the scripted schedule of 15 consecutive rate-limited
outcomes ends in the raised exhaustion error, and a schedule succeeding on
its third attempt returns that success. -/
theorem C2_retry_termination_witness :
    generate_summary_with_guarantee (fun _ => .rateLimited) "file.py"
      = .error (exhaustion_message "file.py")
    ∧ generate_summary_with_guarantee
        (fun i => if i < 2 then .rateLimited else .success ⟨"s", []⟩) "file.py"
      = .ok ⟨"s", []⟩ :=
  ⟨(C2_retry_termination (fun _ => .rateLimited) "file.py").1 (by decide),
   (C2_retry_termination
      (fun i => if i < 2 then .rateLimited else .success ⟨"s", []⟩) "file.py").2
     2 (by decide) (by decide) ⟨"s", []⟩ (by decide)⟩

end GroqClient

namespace Processor

open GroqClient

/-- Claim C1 (amended): exhaustion does propagate out of the *retry
layer* as a raised error, and that layer never fabricates a summary —
every returned summary comes from a successful attempt.  However the
per-file processor catches every exception and substitutes the
placeholder `Backend file: <filename>`, so exhaustion is not fatal to the
batch and a file submitted to the LLM can end up with a placeholder. -/
theorem C1_exhaustion_handling (outcomes : ℕ → AttemptOutcome) (fp : String)
    (llm : DetailedFileAnalysis → Except String LLMSummaryResponse)
    (fa : DetailedFileAnalysis) :
    ((∀ i, i < max_retries → isSuccessOutcome (outcomes i) = false) →
        generate_summary_with_guarantee outcomes fp = .error (exhaustion_message fp))
    ∧ (∀ r, generate_summary_with_guarantee outcomes fp = .ok r →
        ∃ i, i < max_retries ∧ outcomes i = .success r)
    ∧ (∀ e, llm fa = .error e →
        (process_single_file_optimized llm fa).llm_summary
          = some (placeholder_summary fa)) := by
  refine ⟨?_, ?_, ?_⟩
  · intro h
    exact retry_go_error outcomes fp max_retries 0 (fun i _ h2 => h i (by omega))
  · intro r h
    obtain ⟨i, _, hi2, hi3⟩ := retry_go_ok_inv outcomes fp max_retries 0 r h
    exact ⟨i, by omega, hi3⟩
  · intro e he
    unfold process_single_file_optimized
    rw [he]

/-- Witness for C1 (amended), at a concrete schedule and a concrete
failing LLM call. -/
theorem C1_exhaustion_handling_witness :
    generate_summary_with_guarantee (fun _ => .rateLimited) "a.py"
      = .error (exhaustion_message "a.py")
    ∧ (process_single_file_optimized (fun _ => .error "boom")
        Examples.qualifying_file).llm_summary
      = some (placeholder_summary Examples.qualifying_file) :=
  ⟨(C1_exhaustion_handling (fun _ => .rateLimited) "a.py"
      (fun _ => .error "boom") Examples.qualifying_file).1 (by decide),
   (C1_exhaustion_handling (fun _ => .rateLimited) "a.py"
      (fun _ => .error "boom") Examples.qualifying_file).2.2 "boom" rfl⟩

/-- Counterexample to C1 as stated: a qualifying file whose 15 attempts
are all rate-limited (so the retry layer raises) is *not* fatal to the
batch — the run returns normally and the file is silently given the
placeholder summary, despite having been submitted to the LLM. -/
theorem C1_counterexample :
    generate_summary_with_guarantee (fun _ => .rateLimited)
        Examples.qualifying_file.file
      = .error (exhaustion_message "server/app.py")
    ∧ process_files_with_llm_optimized ["k"] Examples.llm_exhausted
        [Examples.qualifying_file] (fun _ => "code")
      = [{ Examples.qualifying_file with
            llm_summary := some "Backend file: app.py" }] := by
  exact ⟨rfl, by decide⟩

end Processor

namespace Processor

open GroqClient

/-- The replacement applied to each original entry in the final loop of
`process_files_with_llm_optimized`. -/
def replace_from (processed : List DetailedFileAnalysis)
    (fa : DetailedFileAnalysis) : DetailedFileAnalysis :=
  match lookup_processed processed fa.file with
  | some pfa => pfa
  | none => fa

/-- The qualifying-and-has-content sublist actually sent to the LLM. -/
def tasked_files (files_data : List DetailedFileAnalysis)
    (file_contents : String → String) : List DetailedFileAnalysis :=
  (files_data.filter should_process_file_optimized).filter
    (fun fa => decide (file_contents fa.file ≠ ""))

theorem process_single_file_keeps_file
    (llm : DetailedFileAnalysis → Except String LLMSummaryResponse)
    (fa : DetailedFileAnalysis) :
    (process_single_file_optimized llm fa).file = fa.file := by
  unfold process_single_file_optimized
  cases llm fa <;> rfl

theorem lookup_processed_some_file {processed : List DetailedFileAnalysis}
    {name : String} {p : DetailedFileAnalysis}
    (h : lookup_processed processed name = some p) : p.file = name := by
  unfold lookup_processed at h
  have := List.find?_some h
  simpa using this

theorem replace_from_keeps_file (processed : List DetailedFileAnalysis)
    (fa : DetailedFileAnalysis) :
    (replace_from processed fa).file = fa.file := by
  unfold replace_from
  cases h : lookup_processed processed fa.file with
  | none => rfl
  | some p => exact lookup_processed_some_file h

theorem find?_eq_of_mem_unique {α : Type} (pred : α → Bool) :
    ∀ (l : List α) (a : α), a ∈ l → pred a = true →
      (∀ b ∈ l, pred b = true → b = a) → l.find? pred = some a := by
  intro l
  induction l with
  | nil => intro a ha _ _; cases ha
  | cons x xs ih =>
      intro a ha hpa huniq
      by_cases hx : pred x = true
      · have hxa : x = a := huniq x (List.mem_cons_self x xs) hx
        rw [List.find?_cons_of_pos _ hx, hxa]
      · rw [List.find?_cons_of_neg _ (by simpa using hx)]
        have ha' : a ∈ xs := by
          rcases List.mem_cons.mp ha with h | h
          · subst h; exact absurd hpa hx
          · exact h
        exact ih a ha' hpa (fun b hb => huniq b (List.mem_cons_of_mem _ hb))

theorem process_files_eq_or_map (api_keys : List String)
    (llm : DetailedFileAnalysis → Except String LLMSummaryResponse)
    (files_data : List DetailedFileAnalysis) (file_contents : String → String) :
    process_files_with_llm_optimized api_keys llm files_data file_contents = files_data
    ∨ process_files_with_llm_optimized api_keys llm files_data file_contents
        = files_data.map (replace_from
            ((tasked_files files_data file_contents).map
              (process_single_file_optimized llm))) := by
  cases api_keys with
  | nil => left; rfl
  | cons a as =>
      unfold process_files_with_llm_optimized
      by_cases h1 : (files_data.filter should_process_file_optimized).isEmpty = true
      · left; rw [if_pos h1]
      · by_cases h2 : ((files_data.filter should_process_file_optimized).filter
            (fun fa => decide (file_contents fa.file ≠ ""))).isEmpty = true
        · left; rw [if_neg h1, if_pos h2]
        · right; rw [if_neg h1, if_neg h2]; rfl

theorem process_files_main (a : String) (as : List String)
    (llm : DetailedFileAnalysis → Except String LLMSummaryResponse)
    (files_data : List DetailedFileAnalysis) (file_contents : String → String)
    (g : DetailedFileAnalysis) (hg : g ∈ tasked_files files_data file_contents) :
    process_files_with_llm_optimized (a :: as) llm files_data file_contents
      = files_data.map (replace_from
          ((tasked_files files_data file_contents).map
            (process_single_file_optimized llm))) := by
  have hg' : g ∈ (files_data.filter should_process_file_optimized).filter
      (fun fa => decide (file_contents fa.file ≠ "")) := hg
  have h2 : ¬ (((files_data.filter should_process_file_optimized).filter
      (fun fa => decide (file_contents fa.file ≠ ""))).isEmpty = true) := by
    rw [List.isEmpty_iff]
    exact List.ne_nil_of_mem hg'
  have h1 : ¬ ((files_data.filter should_process_file_optimized).isEmpty = true) := by
    rw [List.isEmpty_iff]
    exact List.ne_nil_of_mem (List.mem_of_mem_filter hg')
  unfold process_files_with_llm_optimized
  rw [if_neg h1, if_neg h2]
  rfl

theorem tasked_mem {files_data : List DetailedFileAnalysis}
    {file_contents : String → String} {fa : DetailedFileAnalysis}
    (hfa : fa ∈ files_data) (hq : should_process_file_optimized fa = true)
    (hc : file_contents fa.file ≠ "") :
    fa ∈ tasked_files files_data file_contents := by
  unfold tasked_files
  exact List.mem_filter.mpr ⟨List.mem_filter.mpr ⟨hfa, hq⟩, decide_eq_true hc⟩

theorem tasked_sub {files_data : List DetailedFileAnalysis}
    {file_contents : String → String} (g : DetailedFileAnalysis)
    (hg : g ∈ tasked_files files_data file_contents) :
    g ∈ files_data ∧ should_process_file_optimized g = true := by
  have h1 := List.mem_of_mem_filter hg
  exact ⟨List.mem_of_mem_filter h1, (List.mem_filter.mp h1).2⟩

theorem processed_name_unique
    {llm : DetailedFileAnalysis → Except String LLMSummaryResponse}
    {files_data : List DetailedFileAnalysis} {file_contents : String → String}
    (hnd : (files_data.map (fun fa => fa.file)).Nodup)
    {fa : DetailedFileAnalysis} (hfa : fa ∈ files_data) :
    ∀ b ∈ (tasked_files files_data file_contents).map
        (process_single_file_optimized llm),
      b.file = fa.file → b = process_single_file_optimized llm fa := by
  intro b hb hbf
  obtain ⟨g, hg, rfl⟩ := List.mem_map.mp hb
  have hgf : g ∈ files_data := (tasked_sub g hg).1
  have hname : g.file = fa.file := by
    rw [← process_single_file_keeps_file llm g]
    exact hbf
  rw [List.inj_on_of_nodup_map hnd hgf hfa hname]

/-- Claim C4 (amended): the run returns exactly N tasks with the file name
of every position preserved (no duplicates or omissions); assuming
distinct file names, a file that does *not* qualify is returned unchanged
— it is never assigned any placeholder, filename or otherwise — while a
qualifying file with non-empty content is returned as its processed
version: real summary when the LLM call succeeded, and the placeholder
`Backend file: <filename>` exactly when the call raised. -/
theorem C4_aggregation (api_keys : List String)
    (llm : DetailedFileAnalysis → Except String LLMSummaryResponse)
    (files_data : List DetailedFileAnalysis) (file_contents : String → String) :
    ((process_files_with_llm_optimized api_keys llm files_data file_contents).length
        = files_data.length
      ∧ (process_files_with_llm_optimized api_keys llm files_data file_contents).map
          (fun fa => fa.file) = files_data.map (fun fa => fa.file))
    ∧ ((files_data.map (fun fa => fa.file)).Nodup →
        (∀ fa ∈ files_data, should_process_file_optimized fa = false →
          fa ∈ process_files_with_llm_optimized api_keys llm files_data file_contents)
        ∧ (∀ a as, api_keys = a :: as → ∀ fa ∈ files_data,
            should_process_file_optimized fa = true → file_contents fa.file ≠ "" →
            process_single_file_optimized llm fa
              ∈ process_files_with_llm_optimized api_keys llm files_data file_contents))
    ∧ (∀ fa r, llm fa = .ok r →
        (process_single_file_optimized llm fa).llm_summary = some r.summary
        ∧ (process_single_file_optimized llm fa).key_patterns = r.key_insights)
    ∧ (∀ fa e, llm fa = .error e →
        (process_single_file_optimized llm fa).llm_summary
          = some (placeholder_summary fa)) := by
  refine ⟨?_, ?_, ?_, ?_⟩
  · rcases process_files_eq_or_map api_keys llm files_data file_contents with h | h
    · rw [h]; exact ⟨rfl, rfl⟩
    · rw [h]
      refine ⟨List.length_map _ _, ?_⟩
      rw [List.map_map]
      exact List.map_congr_left (fun fa _ => replace_from_keeps_file _ fa)
  · intro hnd
    constructor
    · intro fa hfa hnq
      rcases process_files_eq_or_map api_keys llm files_data file_contents with h | h
      · rw [h]; exact hfa
      · rw [h]
        have hnone : lookup_processed
            ((tasked_files files_data file_contents).map
              (process_single_file_optimized llm)) fa.file = none := by
          unfold lookup_processed
          rw [List.find?_eq_none]
          intro b hb hdec
          obtain ⟨g, hg, rfl⟩ := List.mem_map.mp (List.mem_reverse.mp hb)
          have hgq := (tasked_sub g hg).2
          have hgf := (tasked_sub g hg).1
          have hfeq : (process_single_file_optimized llm g).file = fa.file :=
            of_decide_eq_true hdec
          rw [process_single_file_keeps_file] at hfeq
          have hge : g = fa := List.inj_on_of_nodup_map hnd hgf hfa hfeq
          rw [hge, hnq] at hgq
          exact absurd hgq (by simp)
        refine List.mem_map.mpr ⟨fa, hfa, ?_⟩
        unfold replace_from
        rw [hnone]
    · intro a as hkeys fa hfa hq hc
      have htask := tasked_mem hfa hq hc
      rw [hkeys, process_files_main a as llm files_data file_contents fa htask]
      refine List.mem_map.mpr ⟨fa, hfa, ?_⟩
      have hlook : lookup_processed
          ((tasked_files files_data file_contents).map
            (process_single_file_optimized llm)) fa.file
          = some (process_single_file_optimized llm fa) := by
        unfold lookup_processed
        apply find?_eq_of_mem_unique
        · exact List.mem_reverse.mpr (List.mem_map_of_mem _ htask)
        · exact decide_eq_true (process_single_file_keeps_file llm fa)
        · intro b hb hbd
          exact processed_name_unique hnd hfa b (List.mem_reverse.mp hb)
            (of_decide_eq_true hbd)
      unfold replace_from
      rw [hlook]
  · intro fa r h
    unfold process_single_file_optimized
    rw [h]
    exact ⟨rfl, rfl⟩
  · intro fa e h
    unfold process_single_file_optimized
    rw [h]

/-- Witness for C4 (amended): a two-file batch with distinct names — the
non-qualifying markdown file comes back unchanged, and the qualifying
backend file comes back as its processed version. -/
theorem C4_aggregation_witness :
    Examples.config_file ∈ process_files_with_llm_optimized ["k"] Examples.llm_ok
        [Examples.qualifying_file, Examples.config_file] (fun _ => "c")
    ∧ process_single_file_optimized Examples.llm_ok Examples.qualifying_file
        ∈ process_files_with_llm_optimized ["k"] Examples.llm_ok
          [Examples.qualifying_file, Examples.config_file] (fun _ => "c") :=
  ⟨((C4_aggregation ["k"] Examples.llm_ok
      [Examples.qualifying_file, Examples.config_file] (fun _ => "c")).2.1
      (by decide)).1 Examples.config_file (by decide) (by decide),
   ((C4_aggregation ["k"] Examples.llm_ok
      [Examples.qualifying_file, Examples.config_file] (fun _ => "c")).2.1
      (by decide)).2 "k" [] rfl Examples.qualifying_file (by decide) (by decide)
      (by decide)⟩

/-- Counterexample to C4 as stated: a non-qualifying file is *not*
"immediately assigned a trivial placeholder summary consisting of its
filename" — the run returns it untouched, its summary still empty. -/
theorem C4_counterexample :
    process_files_with_llm_optimized ["k"] Examples.llm_exhausted
        [Examples.config_file] (fun _ => "text") = [Examples.config_file]
    ∧ Examples.config_file.llm_summary = none
    ∧ should_process_file_optimized Examples.config_file = false :=
  ⟨by decide, rfl, by decide⟩

end Processor

namespace RateLimiter

theorem health_step_or (s : LimiterState) (a k' : String) :
    (if s.key_health a < s.key_health k' then k' else a) = a
    ∨ (if s.key_health a < s.key_health k' then k' else a) = k' := by
  split
  · right; rfl
  · left; rfl

theorem foldl_health_mem (s : LimiterState) :
    ∀ (l : List String) (a : String),
      l.foldl (fun best k' => if s.key_health best < s.key_health k' then k' else best) a
        ∈ a :: l := by
  intro l
  induction l with
  | nil => intro a; simp
  | cons x xs ih =>
      intro a
      rw [List.foldl_cons]
      rcases List.mem_cons.mp (ih (if s.key_health a < s.key_health x then x else a)) with h1 | h1
      · rw [h1]
        rcases health_step_or s a x with h2 | h2 <;> rw [h2] <;> simp
      · simp only [List.mem_cons]
        right; right; exact h1

theorem foldl_health_le (s : LimiterState) :
    ∀ (l : List String) (a : String),
      s.key_health a ≤ s.key_health
          (l.foldl (fun best k' => if s.key_health best < s.key_health k' then k' else best) a)
      ∧ ∀ k ∈ l, s.key_health k ≤ s.key_health
          (l.foldl (fun best k' => if s.key_health best < s.key_health k' then k' else best) a) := by
  intro l
  induction l with
  | nil => intro a; exact ⟨le_refl _, by simp⟩
  | cons x xs ih =>
      intro a
      rw [List.foldl_cons]
      obtain ⟨h1, h2⟩ := ih (if s.key_health a < s.key_health x then x else a)
      have hax : s.key_health a ≤ s.key_health (if s.key_health a < s.key_health x then x else a) := by
        split
        · next hlt => exact le_of_lt hlt
        · exact le_refl _
      have hxx : s.key_health x ≤ s.key_health (if s.key_health a < s.key_health x then x else a) := by
        split
        · exact le_refl _
        · next hlt => exact le_of_not_lt hlt
      refine ⟨le_trans hax h1, ?_⟩
      intro k hk
      rcases List.mem_cons.mp hk with hkx | hkxs
      · rw [hkx]; exact le_trans hxx h1
      · exact h2 k hkxs

theorem healthiest_key_mem {s : LimiterState} {k : String}
    (h : healthiest_key s = some k) : k ∈ s.api_keys := by
  unfold healthiest_key at h
  cases hkeys : s.api_keys with
  | nil => rw [hkeys] at h; exact absurd h (by simp)
  | cons a as =>
      rw [hkeys] at h
      simp only [Option.some_inj] at h
      rw [← h]
      exact foldl_health_mem s as a

theorem healthiest_key_isSome {s : LimiterState} (hne : s.api_keys ≠ []) :
    ∃ k, healthiest_key s = some k := by
  unfold healthiest_key
  cases hkeys : s.api_keys with
  | nil => exact absurd hkeys hne
  | cons a as => exact ⟨_, rfl⟩

theorem healthiest_key_max {s : LimiterState} {hk : String}
    (h : healthiest_key s = some hk) :
    ∀ k ∈ s.api_keys, s.key_health k ≤ s.key_health hk := by
  unfold healthiest_key at h
  cases hkeys : s.api_keys with
  | nil => intro k hkm; cases hkm
  | cons a as =>
      rw [hkeys] at h
      simp only [Option.some_inj] at h
      intro k hkm
      rcases List.mem_cons.mp hkm with h1 | h1
      · rw [h1, ← h]; exact (foldl_health_le s as a).1
      · rw [← h]; exact (foldl_health_le s as a).2 k h1

theorem get_best_isSome {s : LimiterState} (hne : s.api_keys ≠ [])
    (est now : ℚ) : ∃ p, get_best_available_key s est now = some p := by
  simp only [get_best_available_key]
  cases hpick : pickBest (s.api_keys.filterMap (eligible_entry s est now)) with
  | some best => exact ⟨(best.1, 0), rfl⟩
  | none =>
      cases hkeys : s.api_keys with
      | nil => exact absurd hkeys hne
      | cons k0 ks =>
          exact ⟨(k0, max (min_wait_of s now) 2), rfl⟩

theorem get_best_wait {s : LimiterState} {est now : ℚ} {k : String} {w : ℚ}
    (h : get_best_available_key s est now = some (k, w)) : w = 0 ∨ 2 ≤ w := by
  rcases get_best_cases h with ⟨hw, _, _⟩ | ⟨_, hw⟩
  · exact Or.inl hw
  · right; rw [hw]; exact le_max_right _ _

theorem get_best_mem {s : LimiterState} {est now : ℚ} {k : String} {w : ℚ}
    (h : get_best_available_key s est now = some (k, w)) : k ∈ s.api_keys := by
  rcases get_best_cases h with ⟨_, hm, _⟩ | ⟨hh, _⟩
  · exact hm
  · cases hkeys : s.api_keys with
    | nil => rw [hkeys] at hh; exact absurd hh (by simp)
    | cons a as =>
        rw [hkeys] at hh
        simp only [List.head?_cons, Option.some_inj] at hh
        rw [← hh]
        exact List.mem_cons_self _ _

theorem adaptive_wait_ge_two {w : ℚ} (hw : 2 ≤ w) (attempt : ℕ) :
    2 ≤ adaptive_wait_of w attempt := by
  unfold adaptive_wait_of
  refine le_min ?_ (by norm_num)
  have h0 : (0:ℚ) ≤ (attempt : ℚ) * (1/5) := by positivity
  nlinarith

theorem wait_loop_isSome (s : LimiterState) (est max_wait start : ℚ)
    (hne : s.api_keys ≠ []) :
    ∀ (fuel : ℕ) (elapsed : ℚ) (attempt : ℕ),
      max_wait - elapsed ≤ 2 * (fuel : ℚ) →
      ∃ k, wait_loop s est max_wait start (fuel + 1) elapsed attempt = some k := by
  intro fuel
  induction fuel with
  | zero =>
      intro elapsed attempt hbound
      have hstop : max_wait ≤ elapsed := by push_cast at hbound; linarith
      obtain ⟨k, hk⟩ := healthiest_key_isSome hne
      refine ⟨k, ?_⟩
      simp only [wait_loop]
      rw [if_pos hstop]
      exact hk
  | succ n ih =>
      intro elapsed attempt hbound
      by_cases hstop : max_wait ≤ elapsed
      · obtain ⟨k, hk⟩ := healthiest_key_isSome hne
        refine ⟨k, ?_⟩
        simp only [wait_loop]
        rw [if_pos hstop]
        exact hk
      · obtain ⟨⟨k, w⟩, hsel⟩ := get_best_isSome hne est (start + elapsed)
        by_cases hw0 : w = 0
        · refine ⟨k, ?_⟩
          simp only [wait_loop]
          rw [if_neg hstop]
          simp only [hsel]
          rw [if_pos hw0]
        · have hw2 : 2 ≤ w := (get_best_wait hsel).resolve_left hw0
          have had : 2 ≤ adaptive_wait_of w attempt := adaptive_wait_ge_two hw2 attempt
          by_cases hesc : max_wait - elapsed < adaptive_wait_of w attempt
          · obtain ⟨hk, hh⟩ := healthiest_key_isSome hne
            refine ⟨hk, ?_⟩
            simp only [wait_loop]
            rw [if_neg hstop]
            simp only [hsel]
            rw [if_neg hw0, if_pos hesc]
            exact hh
          · have hbound' : max_wait - (elapsed + adaptive_wait_of w attempt) ≤ 2 * (n : ℚ) := by
              push_cast at hbound
              linarith
            obtain ⟨k', hk'⟩ := ih (elapsed + adaptive_wait_of w attempt) (attempt + 1) hbound'
            refine ⟨k', ?_⟩
            simp only [wait_loop]
            rw [if_neg hstop]
            simp only [hsel]
            rw [if_neg hw0, if_neg hesc]
            exact hk'

theorem wait_loop_mem (s : LimiterState) (est max_wait start : ℚ) :
    ∀ (fuel : ℕ) (elapsed : ℚ) (attempt : ℕ) (k : String),
      wait_loop s est max_wait start fuel elapsed attempt = some k →
      k ∈ s.api_keys := by
  intro fuel
  induction fuel with
  | zero =>
      intro elapsed attempt k h
      exact absurd h (by simp [wait_loop])
  | succ n ih =>
      intro elapsed attempt k h
      simp only [wait_loop] at h
      by_cases hstop : max_wait ≤ elapsed
      · rw [if_pos hstop] at h
        exact healthiest_key_mem h
      · rw [if_neg hstop] at h
        cases hsel : get_best_available_key s est (start + elapsed) with
        | none => rw [hsel] at h; exact absurd h (by simp)
        | some p =>
            obtain ⟨kk, ww⟩ := p
            simp only [hsel] at h
            by_cases hw0 : ww = 0
            · rw [if_pos hw0] at h
              simp only [Option.some_inj] at h
              rw [← h]
              exact get_best_mem hsel
            · rw [if_neg hw0] at h
              by_cases hesc : max_wait - elapsed < adaptive_wait_of ww attempt
              · rw [if_pos hesc] at h
                exact healthiest_key_mem h
              · rw [if_neg hesc] at h
                exact ih _ _ _ h

theorem wait_fuel_bound (max_wait : ℚ) :
    max_wait - 0 ≤ 2 * ((⌈max_wait⌉.toNat : ℕ) : ℚ) := by
  rcases le_or_lt max_wait 0 with h | h
  · have h0 : (0:ℚ) ≤ ((⌈max_wait⌉.toNat : ℕ) : ℚ) := Nat.cast_nonneg _
    linarith
  · have h1 : max_wait ≤ ((⌈max_wait⌉ : ℤ) : ℚ) := Int.le_ceil _
    have hpos : (0:ℤ) ≤ ⌈max_wait⌉ := Int.ceil_nonneg (le_of_lt h)
    have h2 : ((⌈max_wait⌉.toNat : ℕ) : ℚ) = ((⌈max_wait⌉ : ℤ) : ℚ) := by
      exact_mod_cast Int.toNat_of_nonneg hpos
    linarith

/-- Claim C9: the asynchronous gate always terminates with some
credential: each waiting round sleeps the adaptive delay
`min(wait * (1 + 0.2*attempt), 60)`, and whenever the budget is exceeded
(in particular a non-positive budget on entry) it returns the credential
with the globally highest health score, regardless of eligibility. -/
theorem C9_gate_termination (s : LimiterState) (est max_wait start : ℚ)
    (hne : s.api_keys ≠ []) :
    (∃ k, k ∈ s.api_keys
        ∧ wait_for_available_key_async s est max_wait start = some k)
    ∧ (max_wait ≤ 0 →
        wait_for_available_key_async s est max_wait start = healthiest_key s)
    ∧ (∀ hk, healthiest_key s = some hk →
        ∀ k ∈ s.api_keys, s.key_health k ≤ s.key_health hk) := by
  refine ⟨?_, ?_, ?_⟩
  · obtain ⟨k, hk⟩ := wait_loop_isSome s est max_wait start hne
      (⌈max_wait⌉.toNat) 0 0 (wait_fuel_bound max_wait)
    refine ⟨k, ?_, hk⟩
    exact wait_loop_mem s est max_wait start _ 0 0 k hk
  · intro h0
    unfold wait_for_available_key_async wait_fuel
    simp only [wait_loop]
    rw [if_pos h0]
  · intro hk hhk k hkm
    exact healthiest_key_max hhk k hkm

/-- Witness for C9: a fresh two-key limiter with a 300s budget returns a
configured key (the first round already finds an eligible key). -/
theorem C9_gate_termination_witness :
    ∃ k, k ∈ Examples.c9_state.api_keys
      ∧ wait_for_available_key_async Examples.c9_state 10 300 5 = some k :=
  (C9_gate_termination Examples.c9_state 10 300 5 (by decide)).1

end RateLimiter
